import Mathlib

/-!
Verification of the `identify` library (`src/identify/identify.py`).

Shallow embedding conventions:
* Python `bytes` values are `List Nat` (each element intended < 256).
* Python `str` values are `List Nat` of Unicode code points.
* A binary file stream opened for reading is the `List Nat` of its remaining
  bytes; `read`/`readline` consume from its front.
* Fallible Python code is embedded with `Except`/`Option`; an uncaught Python
  exception (such as the `IndexError` in `parse_shebang`) is an `Except.error`.
-/

namespace Identify

/-- Code points of a Lean string literal, used to transcribe the Python string
literals of the source. -/
def cps (s : String) : List Nat := s.data.map Char.toNat

/-- The characters of Python `string.printable` (digits, ASCII letters, ASCII
punctuation, and the whitespace characters space, tab, linefeed, carriage
return, vertical tab, form feed), as a membership test on code points.  This is
the set `printable = frozenset(string.printable)` from line 20 of the source:
exactly the printable ASCII range 0x20-0x7E together with 0x09-0x0D. -/
def printable (c : Nat) : Bool :=
  (32 ≤ c && c ≤ 126) || c = 9 || c = 10 || c = 11 || c = 12 || c = 13

/-- Python `str` whitespace (the code points for which `str.split()`,
`str.strip()` and the regex class backslash-s split/strip/match): the ASCII
whitespace 0x09-0x0D and 0x20, the C1/Unicode whitespace 0x1C-0x1F, 0x85,
0xA0, and the Unicode space separators. -/
def pyWs (c : Nat) : Bool :=
  (9 ≤ c && c ≤ 13) || c = 32 || (28 ≤ c && c ≤ 31) || c = 133 || c = 160 ||
  c = 5760 || (8192 ≤ c && c ≤ 8202) || c = 8232 || c = 8233 || c = 8239 ||
  c = 8287 || c = 12288

/-- Python `str.strip()`: drop leading and trailing whitespace. -/
def pyStrip (l : List Nat) : List Nat :=
  ((l.dropWhile pyWs).reverse.dropWhile pyWs).reverse

/-- Helper for `pySplitWs`: accumulates the current word (reversed). -/
def pySplitWsGo : List Nat → List Nat → List (List Nat)
  | [], cur => if cur = [] then [] else [cur.reverse]
  | c :: rest, cur =>
    if pyWs c then
      if cur = [] then pySplitWsGo rest []
      else cur.reverse :: pySplitWsGo rest []
    else pySplitWsGo rest (c :: cur)

/-- Python `str.split()` with no argument: split on runs of whitespace,
producing no empty parts. -/
def pySplitWs (l : List Nat) : List (List Nat) := pySplitWsGo l []

/-- Is `b` a UTF-8 continuation byte (0x80-0xBF)? -/
def utf8Cont (b : Nat) : Bool := 128 ≤ b && b ≤ 191

/-- Strict UTF-8 decoding of a byte list to a code-point list, as performed by
Python `bytes.decode('UTF-8')`: rejects truncated sequences, stray
continuation bytes, overlong encodings, surrogate code points (0xED 0xA0-0xBF
leads) and code points above U+10FFFF (0xF5-0xFF leads, 0xF4 with a second
byte above 0x8F).  `none` models `UnicodeDecodeError`. -/
def utf8Decode : List Nat → Option (List Nat)
  | [] => some []
  | b :: bs =>
    if b ≤ 127 then
      match utf8Decode bs with
      | some cs => some (b :: cs)
      | none => none
    else if 194 ≤ b && b ≤ 223 then
      match bs with
      | b1 :: bs1 =>
        if utf8Cont b1 then
          match utf8Decode bs1 with
          | some cs => some (((b - 192) * 64 + (b1 - 128)) :: cs)
          | none => none
        else none
      | [] => none
    else if 224 ≤ b && b ≤ 239 then
      match bs with
      | b1 :: b2 :: bs1 =>
        if (if b = 224 then 160 ≤ b1 && b1 ≤ 191
            else if b = 237 then 128 ≤ b1 && b1 ≤ 159
            else utf8Cont b1) && utf8Cont b2 then
          match utf8Decode bs1 with
          | some cs =>
            some (((b - 224) * 4096 + (b1 - 128) * 64 + (b2 - 128)) :: cs)
          | none => none
        else none
      | _ => none
    else if 240 ≤ b && b ≤ 244 then
      match bs with
      | b1 :: b2 :: b3 :: bs1 =>
        if (if b = 240 then 144 ≤ b1 && b1 ≤ 191
            else if b = 244 then 128 ≤ b1 && b1 ≤ 143
            else utf8Cont b1) && utf8Cont b2 && utf8Cont b3 then
          match utf8Decode bs1 with
          | some cs =>
            some (((b - 240) * 262144 + (b1 - 128) * 4096 +
                   (b2 - 128) * 64 + (b3 - 128)) :: cs)
          | none => none
        else none
      | _ => none
    else none

/-- Python `f.readline()` on a binary stream: the first component is the bytes
up to and including the first 0x0A (or all remaining bytes if there is none),
the second component is the rest of the stream. -/
def readline : List Nat → List Nat × List Nat
  | [] => ([], [])
  | b :: bs =>
    if b = 10 then ([10], bs)
    else (b :: (readline bs).1, (readline bs).2)

/-- The lexer state of `shlex` in POSIX mode: skipping whitespace, inside a
word, inside a quote, or just after an escape character (recording whether the
escape occurred inside a quote, and which). -/
inductive ShState
  | ws
  | word
  | quote (q : Nat)
  | esc (fromQuote : Option Nat)
deriving DecidableEq

/-- Is `c` one of the `shlex` whitespace characters, `' \t\r\n'`? -/
def shlexWs (c : Nat) : Bool := c = 32 || c = 9 || c = 13 || c = 10

/-- One-pass embedding of `list(shlex.shlex(s, posix=True))` with
`whitespace_split = True` and no comment characters, i.e. of
`shlex.split(s)`.  Arguments: lexer state, current token, whether the current
token saw a quote (so that an empty quoted token is still emitted), tokens
emitted so far, remaining input.  `none` models the `ValueError` that `shlex`
raises on an unbalanced quote or a trailing escape character. -/
def shlexRun : ShState → List Nat → Bool → List (List Nat) → List Nat →
    Option (List (List Nat))
  | .ws, _, _, acc, [] => some acc
  | .ws, tok, quoted, acc, c :: rest =>
    if shlexWs c then shlexRun .ws tok quoted acc rest
    else if c = 39 || c = 34 then shlexRun (.quote c) tok true acc rest
    else if c = 92 then shlexRun (.esc none) tok quoted acc rest
    else shlexRun .word (tok ++ [c]) quoted acc rest
  | .word, tok, quoted, acc, [] =>
    if tok = [] && !quoted then some acc else some (acc ++ [tok])
  | .word, tok, quoted, acc, c :: rest =>
    if shlexWs c then
      if tok = [] && !quoted then shlexRun .ws [] false acc rest
      else shlexRun .ws [] false (acc ++ [tok]) rest
    else if c = 39 || c = 34 then shlexRun (.quote c) tok true acc rest
    else if c = 92 then shlexRun (.esc none) tok quoted acc rest
    else shlexRun .word (tok ++ [c]) quoted acc rest
  | .quote _, _, _, _, [] => none
  | .quote q, tok, quoted, acc, c :: rest =>
    if c = q then shlexRun .word tok quoted acc rest
    else if q = 34 && c = 92 then shlexRun (.esc (some q)) tok quoted acc rest
    else shlexRun (.quote q) (tok ++ [c]) quoted acc rest
  | .esc _, _, _, _, [] => none
  | .esc none, tok, quoted, acc, c :: rest =>
    shlexRun .word (tok ++ [c]) quoted acc rest
  | .esc (some q), tok, quoted, acc, c :: rest =>
    shlexRun (.quote q)
      (tok ++ (if c ≠ 92 && c ≠ q then [92, c] else [c])) quoted acc rest

/-- Python `shlex.split(line)`. -/
def shlexSplit (l : List Nat) : Option (List (List Nat)) :=
  shlexRun .ws [] false [] l

/-- `_shebang_split` (lines 144-153): best-guess parse with `shlex`; if that
raises `ValueError`, fall back to splitting on whitespace. -/
def _shebang_split (line : List Nat) : List (List Nat) :=
  match shlexSplit line with
  | some toks => toks
  | none => pySplitWs line

/-- The token scan of `_parse_nix_shebang` (lines 172-176): for each token of
`line_tokens[:-1]` equal to `-i`, replace the command by the singleton holding
the next token. -/
def nixScan : List (List Nat) → List (List Nat) → List (List Nat)
  | t :: next :: rest, cmd =>
    nixScan (next :: rest) (if t = cps "-i" then [next] else cmd)
  | _, cmd => cmd

/-- `_parse_nix_shebang` (lines 156-177): while the next two stream bytes are
`#!`, read a line; on a UTF-8 decode failure or a non-printable character,
return the command accumulated so far; otherwise tokenize the stripped line
and apply the `-i` scan. -/
def _parse_nix_shebang (bytesio : List Nat) (cmd : List (List Nat)) :
    List (List Nat) :=
  if h : bytesio.take 2 = [35, 33] then
    match utf8Decode (readline (bytesio.drop 2)).1 with
    | none => cmd
    | some nextLine =>
      if nextLine.all printable then
        _parse_nix_shebang (readline (bytesio.drop 2)).2
          (nixScan (_shebang_split (pyStrip nextLine)) cmd)
      else cmd
  else cmd
termination_by bytesio.length
decreasing_by
  simp_wf
  have h2 : 2 ≤ bytesio.length := by
    have := congrArg List.length h
    simp [List.length_take] at this
    omega
  have hr : (readline (bytesio.drop 2)).2.length ≤ (bytesio.drop 2).length := by
    generalize bytesio.drop 2 = l
    induction l with
    | nil => simp [readline]
    | cons b bs ih =>
      by_cases hb : b = 10 <;> simp [readline, hb] <;> omega
  simp [List.length_drop] at hr
  omega

/-- The error raised by `parse_shebang` when the shebang line tokenizes to the
single token `/usr/bin/env`: the unguarded `cmd[1]` access on line 197 raises
`IndexError: tuple index out of range`. -/
inductive ShebangErr
  | indexError
deriving DecidableEq

/-- `parse_shebang` (lines 180-204): parse the shebang from a stream opened
for binary reading.  Returns the tuple of command tokens; `Except.error
.indexError` models the uncaught `IndexError` from `cmd[1]` when the line
tokenizes to exactly `('/usr/bin/env',)`. -/
def parse_shebang (bytesio : List Nat) : Except ShebangErr (List (List Nat)) :=
  if bytesio.take 2 ≠ [35, 33] then .ok []
  else
    match utf8Decode (readline (bytesio.drop 2)).1 with
    | none => .ok []
    | some firstLine =>
      if ¬ firstLine.all printable then .ok []
      else
        match _shebang_split (pyStrip firstLine) with
        | [] => .ok []
        | c0 :: ctail =>
          if c0 = cps "/usr/bin/env" then
            match ctail with
            | [] => .error .indexError
            | c1 :: crest =>
              if (if c1 = cps "-S" then crest else c1 :: crest) =
                  [cps "nix-shell"] then
                .ok (_parse_nix_shebang (readline (bytesio.drop 2)).2
                  (if c1 = cps "-S" then crest else c1 :: crest))
              else .ok (if c1 = cps "-S" then crest else c1 :: crest)
          else .ok (c0 :: ctail)

/-- The byte set `text_chars` of `is_text` (lines 129-133): bell, backspace,
tab, linefeed, vertical tab, form feed, carriage return, escape, printable
ASCII 0x20-0x7E, and every byte with the high bit set. -/
def text_chars : List Nat :=
  [7, 8, 9, 10, 11, 12, 13, 27] ++ (List.range 95).map (· + 32) ++
  (List.range 128).map (· + 128)

/-- `is_text` (lines 123-134): read the first 1024 bytes, delete every byte of
`text_chars`, and report text exactly when nothing remains. -/
def is_text (bytesio : List Nat) : Bool :=
  ((bytesio.take 1024).filter (fun b => !(text_chars.contains b))).isEmpty

/-- An I/O failure of `os.lstat`: an `OSError` carrying an errno, or the
`ValueError` raised for paths the OS API rejects outright (such as a path
containing a NUL byte). -/
inductive StatErr
  | osError (errno : Nat)
  | valueError
deriving DecidableEq

/-- The result of `open`/`read` on a path: either the file's bytes or an
`OSError` with its errno.  Read failures are folded into the open result. -/
abbrev OpenResult := Except Nat (List Nat)

/-- Decidable equality for `Except`, so that the closed theorems below can be
settled by evaluation. -/
instance {ε α : Type} [DecidableEq ε] [DecidableEq α] :
    DecidableEq (Except ε α) := fun x y =>
  match x, y with
  | .error a, .error b =>
    if h : a = b then .isTrue (by rw [h])
    else .isFalse (by intro hc; injection hc; exact h (by assumption))
  | .error _, .ok _ => .isFalse (by intro hc; exact Except.noConfusion hc)
  | .ok _, .error _ => .isFalse (by intro hc; exact Except.noConfusion hc)
  | .ok a, .ok b =>
    if h : a = b then .isTrue (by rw [h])
    else .isFalse (by intro hc; injection hc; exact h (by assumption))

/-- `errno.EINVAL` on Linux. -/
def EINVAL : Nat := 22

/-- The OS-visible state of one path as consulted by
`parse_shebang_from_file`: whether `os.path.lexists` succeeds, whether
`os.access(path, os.X_OK)` grants execute, and what `open(path, 'rb')`
followed by the reads yields. -/
structure ShebangFile where
  lexists : Bool
  executable : Bool
  openResult : OpenResult
deriving DecidableEq

/-- Failures of `parse_shebang_from_file`: the `ValueError('... does not
exist.')` for a missing path, a propagated `OSError`, or the propagated
`IndexError` from `parse_shebang` (not an `OSError`, hence not caught). -/
inductive ShebangFileErr
  | notFound
  | ioError (errno : Nat)
  | indexError
deriving DecidableEq

/-- `parse_shebang_from_file` (lines 207-221): raise for a missing path,
return the empty command for a non-executable entry, swallow an `EINVAL`
open/read failure, propagate any other `OSError`, and otherwise parse the
stream. -/
def parse_shebang_from_file (f : ShebangFile) :
    Except ShebangFileErr (List (List Nat)) :=
  if ¬ f.lexists then .error .notFound
  else if ¬ f.executable then .ok []
  else
    match f.openResult with
    | .error n => if n = EINVAL then .ok [] else .error (.ioError n)
    | .ok content =>
      match parse_shebang content with
      | .error .indexError => .error .indexError
      | .ok cmd => .ok cmd

/-- A tag is a Python string, as a list of code points. -/
abbrev Tag := List Nat

def DIRECTORY : Tag := cps "directory"

def SYMLINK : Tag := cps "symlink"

def SOCKET : Tag := cps "socket"

def FILE : Tag := cps "file"

def EXECUTABLE : Tag := cps "executable"

def NON_EXECUTABLE : Tag := cps "non-executable"

def TEXT : Tag := cps "text"

def BINARY : Tag := cps "binary"

def MODE_TAGS : Finset Tag := {EXECUTABLE, NON_EXECUTABLE}

def ENCODING_TAGS : Finset Tag := {BINARY, TEXT}

/-- Modelled from the spec: the lookup tables of `identify.extensions` and
`identify.interpreters` are vendored data files that are not part of `src/`;
per the spec they are external, immutable string-to-tag-set mappings supplied
fully formed.  `none` models a key that is absent from a table. -/
structure Catalogs where
  names : List Nat → Option (Finset Tag)
  exts : List Nat → Option (Finset Tag)
  extsNeedBinaryCheck : List Nat → Option (Finset Tag)
  interps : List Nat → Option (Finset Tag)

/-- Python `s.rfind(b)` on a code-point list: the index of the last occurrence
of `b`, or `-1`. -/
def rfind (b : Nat) : List Nat → Int
  | [] => -1
  | c :: rest =>
    if 0 ≤ rfind b rest then rfind b rest + 1
    else if c = b then 0 else -1

/-- `posixpath.splitext`: split off the extension at the last `.`, except that
leading dots of the basename (the part after the last `/`) never start an
extension. -/
def splitext (p : List Nat) : List Nat × List Nat :=
  if rfind 46 p > rfind 47 p ∧
      ((p.drop ((rfind 47 p + 1).toNat)).take
        ((rfind 46 p - rfind 47 p - 1).toNat)).any (· ≠ 46) then
    (p.take (rfind 46 p).toNat, p.drop (rfind 46 p).toNat)
  else (p, [])

/-- Python `s.split(sep)` for a one-character separator, keeping empty
parts. -/
def splitOnByte (b : Nat) : List Nat → List (List Nat)
  | [] => [[]]
  | c :: rest =>
    match splitOnByte b rest with
    | h :: t => if c = b then [] :: h :: t else (c :: h) :: t
    | [] => if c = b then [[], []] else [[c]]

/-- The part of `s` after the last occurrence of `b` (all of `s` if `b` does
not occur): `os.path.split(s)[1]` for `b = '/'`, and the last component of
`s.rpartition(b)`. -/
def afterLastByte (b : Nat) (l : List Nat) : List Nat :=
  (splitOnByte b l).getLastD l

/-- The part of `s` before the last occurrence of `b`, or `''` if `b` does not
occur: the first component of `s.rpartition(b)`. -/
def beforeLastByte (b : Nat) : List Nat → List Nat
  | [] => []
  | c :: rest => if b ∈ rest then c :: beforeLastByte b rest else []

/-- Python `str.lower()` restricted to ASCII letters (every key looked up in
the catalogs and both keywords of the copyright pattern are ASCII). -/
def asciiLower (c : Nat) : Nat := if 65 ≤ c && c ≤ 90 then c + 32 else c

/-- The name-table scan of `tags_from_filename` (lines 95-98): try each
candidate part in order and return the tag set of the first hit. -/
def namesScan (cat : Catalogs) : List (List Nat) → Finset Tag
  | [] => ∅
  | p :: ps =>
    match cat.names p with
    | some t => t
    | none => namesScan cat ps

/-- `tags_from_filename` (lines 88-107): look up the whole filename and its
`.`-separated parts in the name table, then the lowercased extension in the
extension tables, and union the results. -/
def tags_from_filename (cat : Catalogs) (path : List Nat) : Finset Tag :=
  if 0 < (splitext (afterLastByte 47 path)).2.length then
    match cat.exts (((splitext (afterLastByte 47 path)).2.drop 1).map asciiLower) with
    | some t =>
      namesScan cat (afterLastByte 47 path :: splitOnByte 46 (afterLastByte 47 path)) ∪ t
    | none =>
      match cat.extsNeedBinaryCheck
          (((splitext (afterLastByte 47 path)).2.drop 1).map asciiLower) with
      | some t =>
        namesScan cat (afterLastByte 47 path :: splitOnByte 46 (afterLastByte 47 path)) ∪ t
      | none =>
        namesScan cat (afterLastByte 47 path :: splitOnByte 46 (afterLastByte 47 path))
  else namesScan cat (afterLastByte 47 path :: splitOnByte 46 (afterLastByte 47 path))

/-- The lookup loop of `tags_from_interpreter` (lines 113-120): try the
interpreter name, then repeatedly strip a trailing `.`-suffix until a table
hit or the empty string. -/
def interpLoop (cat : Catalogs) (interpreter : List Nat) : Finset Tag :=
  if h : interpreter = [] then ∅
  else
    match cat.interps interpreter with
    | some t => t
    | none => interpLoop cat (beforeLastByte 46 interpreter)
termination_by interpreter.length
decreasing_by
  simp_wf
  have hlt : ∀ l : List Nat, l ≠ [] → (beforeLastByte 46 l).length < l.length := by
    intro l
    induction l with
    | nil => simp
    | cons c rest ih =>
      intro _
      by_cases hm : (46 : Nat) ∈ rest
      · have hrest : rest ≠ [] := by rintro rfl; simp at hm
        simp only [beforeLastByte, hm, if_true, List.length_cons]
        have := ih hrest
        omega
      · simp [beforeLastByte, hm]
  exact hlt interpreter h

/-- `tags_from_interpreter` (lines 110-120): drop the directory part of the
interpreter path, then run the suffix-stripping lookup loop. -/
def tags_from_interpreter (cat : Catalogs) (interpreter : List Nat) : Finset Tag :=
  interpLoop cat (afterLastByte 47 interpreter)

/-- Failures of `file_is_text` (lines 137-141): the `ValueError` for a path
that fails `os.path.lexists`, or a propagated `OSError` from `open`/`read`. -/
inductive TextErr
  | notFound
  | ioError (errno : Nat)
deriving DecidableEq

/-- `file_is_text` (lines 137-141): raise for a missing path, otherwise open
for binary reading and sniff the content. -/
def file_is_text (lexists : Bool) (openResult : OpenResult) :
    Except TextErr Bool :=
  if ¬ lexists then .error .notFound
  else
    match openResult with
    | .error n => .error (.ioError n)
    | .ok content => .ok (is_text content)

/-- The `stat.S_ISDIR`/`S_ISLNK`/`S_ISSOCK` classification of an `st_mode`;
`other` covers every remaining mode (regular files and the special files the
source tags as `file`). -/
inductive FileType
  | dir
  | symlink
  | sock
  | other
deriving DecidableEq

/-- Everything `tags_from_path` observes about one path, in the order the
source consults the OS: the `os.lstat` outcome, the `os.access(path,
os.X_OK)` answer, the basename handed to `tags_from_filename`, the state seen
by `parse_shebang_from_file`, and the state seen by `file_is_text` (the two
opens are distinct calls, so they carry separate fields). -/
structure PathEntry where
  lstatResult : Except StatErr FileType
  executable : Bool
  basename : List Nat
  shebangFile : ShebangFile
  textLexists : Bool
  textOpenResult : OpenResult

/-- Failures of `tags_from_path`: the `ValueError('... does not exist.')` from
a failed `lstat`, the propagated failures of `parse_shebang_from_file` and
`file_is_text`, and an `AssertionError` from the final invariant asserts. -/
inductive ClassifyErr
  | notFound
  | shebangNotFound
  | shebangOsError (errno : Nat)
  | shebangIndex
  | textNotFound
  | textOsError (errno : Nat)
  | assertionError
deriving DecidableEq

/-- The tag set `{FILE}` after line 58-62 added exactly one mode tag. -/
def baseTags (executable : Bool) : Finset Tag :=
  if executable then {FILE, EXECUTABLE} else {FILE, NON_EXECUTABLE}

/-- Lines 56-73 of `tags_from_path`: the mode tags plus the filename tags, or,
when the filename yields nothing and the file is executable, the interpreter
tags of the shebang's first token. -/
def lookupPhase (cat : Catalogs) (e : PathEntry) :
    Except ClassifyErr (Finset Tag) :=
  if tags_from_filename cat e.basename = ∅ then
    if e.executable then
      match parse_shebang_from_file e.shebangFile with
      | .error .notFound => .error .shebangNotFound
      | .error (.ioError n) => .error (.shebangOsError n)
      | .error .indexError => .error .shebangIndex
      | .ok [] => .ok (baseTags e.executable)
      | .ok (s0 :: _) => .ok (baseTags e.executable ∪ tags_from_interpreter cat s0)
    else .ok (baseTags e.executable)
  else .ok (baseTags e.executable ∪ tags_from_filename cat e.basename)

/-- Lines 75-81 of `tags_from_path`: when no encoding tag is present yet, add
`text` or `binary` according to the content sniffer. -/
def encodingPhase (e : PathEntry) (tags : Finset Tag) :
    Except ClassifyErr (Finset Tag) :=
  if ENCODING_TAGS ∩ tags = ∅ then
    match file_is_text e.textLexists e.textOpenResult with
    | .error .notFound => .error .textNotFound
    | .error (.ioError n) => .error (.textOsError n)
    | .ok true => .ok (insert TEXT tags)
    | .ok false => .ok (insert BINARY tags)
  else .ok tags

/-- Lines 83-84 of `tags_from_path`: the two `assert` statements before the
return. -/
def assertPhase (tags : Finset Tag) : Except ClassifyErr (Finset Tag) :=
  if ENCODING_TAGS ∩ tags = ∅ then .error .assertionError
  else if MODE_TAGS ∩ tags = ∅ then .error .assertionError
  else .ok tags

/-- `tags_from_path` (lines 42-85): any `lstat` failure becomes the single
`ValueError('... does not exist.')`; directories, symlinks and sockets yield
singleton tag sets; everything else is tagged `file` and run through the
lookup, encoding and assert phases. -/
def tags_from_path (cat : Catalogs) (e : PathEntry) :
    Except ClassifyErr (Finset Tag) :=
  match e.lstatResult with
  | .error _ => .error .notFound
  | .ok .dir => .ok {DIRECTORY}
  | .ok .symlink => .ok {SYMLINK}
  | .ok .sock => .ok {SOCKET}
  | .ok .other =>
    match lookupPhase cat e with
    | .error err => .error err
    | .ok tags1 =>
      match encodingPhase e tags1 with
      | .error err => .error err
      | .ok tags2 => assertPhase tags2

/-- One line of the copyright pattern `COPYRIGHT_RE` (line 224): after
optional leading whitespace, a case-insensitive `Copyright ` or `(C) `.  The
multiline regex substitution of `_norm_license` removes exactly the content of
such lines; modelling it line-by-line differs from the regex only in
whitespace (the regex may also swallow adjacent blank space), which the
subsequent whitespace collapse erases, so the normalized output is
identical. -/
def isCopyrightLine (line : List Nat) : Bool :=
  decide (cps "copyright " <+: (line.dropWhile pyWs).map asciiLower) ||
  decide (cps "(c) " <+: (line.dropWhile pyWs).map asciiLower)

/-- Helper for `collapseWs`: the flag records whether the previous character
was whitespace, so that only the first character of each whitespace run emits
a space. -/
def collapseWsGo : Bool → List Nat → List Nat
  | _, [] => []
  | prevWs, c :: rest =>
    if pyWs c then
      if prevWs then collapseWsGo true rest
      else 32 :: collapseWsGo true rest
    else c :: collapseWsGo false rest

/-- The whitespace collapse `WS_RE.sub(' ', s)` (lines 225, 230): replace
every maximal run of whitespace by a single space. -/
def collapseWs (l : List Nat) : List Nat := collapseWsGo false l

/-- `_norm_license` (lines 228-231): drop copyright lines, collapse
whitespace, strip the ends. -/
def _norm_license (s : List Nat) : List Nat :=
  pyStrip (collapseWs (List.intercalate [10]
    ((splitOnByte 10 s).filter (fun l => !(isCopyrightLine l)))))

/-- One inner step of the Levenshtein dynamic program: given the character
`x` of the first string, the remaining characters of the second string, the
remaining entries of the previous row starting at the current column, the
diagonal predecessor, and the entry just computed to the left, produce the
rest of the current row. -/
def levRowAux (x : Nat) : List Nat → List Nat → Nat → Nat → List Nat
  | [], _, _, _ => []
  | yj :: bs, prevTail, diag, left =>
    match prevTail with
    | pj :: rest =>
      (min (pj + 1) (min (left + 1) (diag + if x = yj then 0 else 1))) ::
        levRowAux x bs rest pj
          (min (pj + 1) (min (left + 1) (diag + if x = yj then 0 else 1)))
    | [] => []

/-- The next row of the Levenshtein dynamic program table. -/
def levRow (x : Nat) (b : List Nat) (prev : List Nat) : List Nat :=
  match prev with
  | p0 :: rest => (p0 + 1) :: levRowAux x b rest p0 (p0 + 1)
  | [] => []

/-- The Levenshtein distance with unit-cost insertion, deletion and
substitution, computed with the standard row-by-row dynamic program. -/
def levenshtein (a b : List Nat) : Nat :=
  (a.foldl (fun prev x => levRow x b prev) (List.range (b.length + 1))).getLastD 0

/-- Modelled from the spec: `ukkonen.distance(a, b, k)` comes from the
external `ukkonen` package (`import ukkonen` on line 248), which is not part
of `src/`.  Per §4.4 step 5 of the spec it is the Levenshtein distance
computed with permission to stop early once the distance is known to reach
the cutoff, i.e. `min(levenshtein(a, b), k)`; `license_id` only ever compares
the result against `< cutoff`, for which this model is exact. -/
def ukkonen_distance (a b : List Nat) (k : Nat) : Nat := min (levenshtein a b) k

/-- `sys.maxsize` on a 64-bit CPython, the initial minimum-distance
sentinel. -/
def sysMaxsize : Nat := 2 ^ 63 - 1

/-- The absolute difference `abs(len(norm) - len(norm_license))` of two Python
ints, on naturals. -/
def absDiff (a b : Nat) : Nat := max a b - min a b

/-- The cutoff `math.ceil(.05 * len(norm))` (line 258), with the float product
modelled exactly as the rational `len/20` (the spec defines the cutoff as 5%
of the length). -/
def licenseCutoff (n : Nat) : Nat := (n + 19) / 20

/-- The entry loop of `license_id` (lines 261-273) over the remaining catalog,
carrying `min_edit_dist` and `min_edit_dist_spdx`, followed by the final
decision (lines 276-280).  The skip test `abs(len(norm) -
len(norm_license)) / len(norm) > .05` is modelled exactly as the rational
comparison `len(norm) < 20 * abs(...)`. -/
def license_id_scan (norm : List Nat) (cutoff : Nat) :
    List (List Nat × List Nat) → Nat → List Nat → Option (List Nat)
  | [], minD, minS => if norm ≠ [] ∧ minD < cutoff then some minS else none
  | (spdx, text) :: rest, minD, minS =>
    if norm = _norm_license text then some spdx
    else if norm ≠ [] ∧
        norm.length < 20 * absDiff norm.length (_norm_license text).length then
      license_id_scan norm cutoff rest minD minS
    else
      if ukkonen_distance norm (_norm_license text) cutoff < cutoff ∧
          ukkonen_distance norm (_norm_license text) cutoff < minD then
        license_id_scan norm cutoff rest
          (ukkonen_distance norm (_norm_license text) cutoff) spdx
      else license_id_scan norm cutoff rest minD minS

/-- `license_id` (lines 234-280) with the file read abstracted to its decoded
contents and the vendored catalog `licenses.LICENSES` (external data, not in
`src/`) passed explicitly as an ordered list of (spdx id, text) pairs. -/
def license_id (catalog : List (List Nat × List Nat)) (contents : List Nat) :
    Option (List Nat) :=
  license_id_scan (_norm_license contents)
    (licenseCutoff (_norm_license contents).length) catalog sysMaxsize []

/-- The character set claim C3 asserts `parse_shebang` accepts, following the
claim's words: standard printable ASCII plus tab, newline, vertical tab, form
feed, carriage return, bell, backspace, escape.  (Compare `printable`, the
set the source actually uses, which lacks bell, backspace and escape.) -/
def specC3Printable (c : Nat) : Bool :=
  (32 ≤ c && c ≤ 126) || c = 9 || c = 10 || c = 11 || c = 12 || c = 13 ||
  c = 7 || c = 8 || c = 27

/-- Follows claim C6's words for the `-i` scan: the net effect of "each
occurrence of a `-i` token followed by another token replaces the command
with that following single token" is that the token after the last such `-i`
wins. -/
def nixLastIArg : List (List Nat) → Option (List Nat)
  | t :: next :: rest =>
    match nixLastIArg (next :: rest) with
    | some a => some a
    | none => if t = cps "-i" then some next else none
  | _ => none

/-- Well-formedness of one catalog tag set, as the spec's data model (§3)
prescribes: catalog values supply format/language and at most one encoding
tag, never the singleton type tags `directory`/`symlink`/`socket`, never a
mode tag, and never both encodings at once. -/
def wfTagSet (t : Finset Tag) : Prop :=
  DIRECTORY ∉ t ∧ SYMLINK ∉ t ∧ SOCKET ∉ t ∧ EXECUTABLE ∉ t ∧
  NON_EXECUTABLE ∉ t ∧ ¬(TEXT ∈ t ∧ BINARY ∈ t)

/-- The invariant claim C2 states for a successfully classified tag set. -/
def tagSetInvariant (tags : Finset Tag) : Prop :=
  (FILE ∈ tags →
    ((EXECUTABLE ∈ tags ∧ NON_EXECUTABLE ∉ tags) ∨
     (NON_EXECUTABLE ∈ tags ∧ EXECUTABLE ∉ tags)) ∧
    ((TEXT ∈ tags ∧ BINARY ∉ tags) ∨ (BINARY ∈ tags ∧ TEXT ∉ tags))) ∧
  ((DIRECTORY ∈ tags ∨ SYMLINK ∈ tags ∨ SOCKET ∈ tags) →
    EXECUTABLE ∉ tags ∧ NON_EXECUTABLE ∉ tags ∧ TEXT ∉ tags ∧ BINARY ∉ tags)

/-- A catalog with empty tables, for concrete instantiations. -/
def catEmpty : Catalogs :=
  ⟨fun _ => none, fun _ => none, fun _ => none, fun _ => none⟩

/-- The length-pruning test of `license_id` (lines 266-267) applied to the
normalized candidate and one normalized catalog text: `norm and
abs(len(norm) - len(norm_license)) / len(norm) > .05`, with the float
division modelled as the exact rational comparison. -/
def lengthSkipped (norm nl : List Nat) : Prop :=
  norm ≠ [] ∧ norm.length < 20 * absDiff norm.length nl.length

instance (norm nl : List Nat) : Decidable (lengthSkipped norm nl) := by
  unfold lengthSkipped
  infer_instance

/-- One step of the minimum-tracking fold that the `license_id` loop performs
on `(min_edit_dist, min_edit_dist_spdx)` for a non-exactly-matching entry. -/
def scanStep (norm : List Nat) (cutoff : Nat) (p : Nat × List Nat)
    (e : List Nat × List Nat) : Nat × List Nat :=
  if norm ≠ [] ∧
      norm.length < 20 * absDiff norm.length (_norm_license e.2).length then p
  else
    if ukkonen_distance norm (_norm_license e.2) cutoff < cutoff ∧
        ukkonen_distance norm (_norm_license e.2) cutoff < p.1 then
      (ukkonen_distance norm (_norm_license e.2) cutoff, e.1)
    else p

/-- Membership in `text_chars`, spelled out as byte ranges. -/
theorem mem_text_chars (b : Nat) :
    b ∈ text_chars ↔
      (b = 7 ∨ b = 8 ∨ b = 9 ∨ b = 10 ∨ b = 11 ∨ b = 12 ∨ b = 13 ∨ b = 27 ∨
       (32 ≤ b ∧ b ≤ 126) ∨ (128 ≤ b ∧ b ≤ 255)) := by
  simp only [text_chars, List.mem_append, List.mem_map, List.mem_range,
    List.mem_cons, List.not_mem_nil, or_false]
  constructor
  · rintro ((h | h | h | h | h | h | h | h) | ⟨a, ha, rfl⟩ | ⟨a, ha, rfl⟩) <;>
      omega
  · intro h
    rcases h with h | h | h | h | h | h | h | h | ⟨h1, h2⟩ | ⟨h1, h2⟩
    all_goals try (left; left; omega)
    · exact Or.inl (Or.inr ⟨b - 32, by omega, by omega⟩)
    · exact Or.inr ⟨b - 128, by omega, by omega⟩

/-- C1: `parse_shebang` is claimed total, returning an empty command on the
degenerate stream whose first line is exactly `#!/usr/bin/env`; the code
instead reaches the unguarded `cmd[1]` on line 197 and raises `IndexError`,
so the claim describes the spec's stated intent and the code is the slip. -/
theorem C1_env_single_token_raises :
    parse_shebang (cps "#!/usr/bin/env\n") = .error .indexError := by decide

/-- C5: the content sniffer reports text exactly when every byte of the first
`min(1024, length)` bytes lies in
`{7,8,9,10,11,12,13,27} ∪ [0x20,0x7E] ∪ [0x80,0xFF]`; `AB\n` is text, a NUL
among the first 1024 bytes forces binary, and the empty stream is text. -/
theorem C5_is_text_characterization :
    (∀ bs : List Nat, is_text bs = true ↔
      ∀ b ∈ bs.take 1024,
        b = 7 ∨ b = 8 ∨ b = 9 ∨ b = 10 ∨ b = 11 ∨ b = 12 ∨ b = 13 ∨ b = 27 ∨
        (32 ≤ b ∧ b ≤ 126) ∨ (128 ≤ b ∧ b ≤ 255)) ∧
    is_text [65, 66, 10] = true ∧
    (∀ bs : List Nat, 0 ∈ bs.take 1024 → is_text bs = false) ∧
    is_text [] = true := by
  have hiff : ∀ bs : List Nat, is_text bs = true ↔
      ∀ b ∈ bs.take 1024,
        b = 7 ∨ b = 8 ∨ b = 9 ∨ b = 10 ∨ b = 11 ∨ b = 12 ∨ b = 13 ∨ b = 27 ∨
        (32 ≤ b ∧ b ≤ 126) ∨ (128 ≤ b ∧ b ≤ 255) := by
    intro bs
    rw [is_text, List.isEmpty_iff, List.filter_eq_nil_iff]
    constructor
    · intro h b hb
      have := h b hb
      rw [← mem_text_chars]
      simpa using this
    · intro h b hb
      have := (mem_text_chars b).mpr (h b hb)
      simpa using this
  refine ⟨hiff, by decide, ?_, by decide⟩
  intro bs h0
  cases hit : is_text bs
  · rfl
  · have := (hiff bs).mp hit 0 h0
    omega

/-- C5 witness: the three boundary examples, with the NUL case instantiated
at the concrete input `[0, 65]`. -/
theorem C5_is_text_characterization_witness :
    is_text [65, 66, 10] = true ∧ is_text [0, 65] = false ∧
    is_text [] = true :=
  ⟨C5_is_text_characterization.2.1,
   C5_is_text_characterization.2.2.1 [0, 65] (by decide),
   C5_is_text_characterization.2.2.2⟩

/-- C10: every failure of the `os.lstat` call on line 44 — `OSError` of any
errno (a missing entry, a permission failure on a parent, ...) as well as the
`ValueError` for an unrepresentable path — is converted by lines 45-46 into
the single `ValueError('... does not exist.')`, so the caller cannot tell the
causes apart. -/
theorem C10_lstat_failures_conflated (cat : Catalogs) (e : PathEntry)
    (err : StatErr) (h : e.lstatResult = .error err) :
    tags_from_path cat e = .error .notFound := by
  unfold tags_from_path
  rw [h]

/-- C10 witness: a permission failure (EACCES = 13) on the stat, and the
`ValueError` case, both surface as the NotFound condition. -/
theorem C10_lstat_failures_conflated_witness :
    tags_from_path catEmpty
      ⟨.error (.osError 13), false, [], ⟨true, true, .ok []⟩, true, .ok []⟩ =
        .error .notFound ∧
    tags_from_path catEmpty
      ⟨.error .valueError, false, [], ⟨true, true, .ok []⟩, true, .ok []⟩ =
        .error .notFound :=
  ⟨C10_lstat_failures_conflated catEmpty _ (.osError 13) rfl,
   C10_lstat_failures_conflated catEmpty _ .valueError rfl⟩

/-- C8: the path-based parser raises NotFound for a missing path (checked
with `os.path.lexists`, which does not follow the final symlink), returns the
empty command for a non-executable entry, swallows an `EINVAL` failure of the
open/read as the empty command, and propagates every other `OSError`. -/
theorem C8_parse_shebang_from_file_errors (f : ShebangFile) :
    (f.lexists = false → parse_shebang_from_file f = .error .notFound) ∧
    (f.lexists = true → f.executable = false →
      parse_shebang_from_file f = .ok []) ∧
    (f.lexists = true → f.executable = true → f.openResult = .error EINVAL →
      parse_shebang_from_file f = .ok []) ∧
    (∀ n, n ≠ EINVAL → f.lexists = true → f.executable = true →
      f.openResult = .error n →
      parse_shebang_from_file f = .error (.ioError n)) := by
  refine ⟨?_, ?_, ?_, ?_⟩
  · intro h
    simp [parse_shebang_from_file, h]
  · intro h1 h2
    simp [parse_shebang_from_file, h1, h2]
  · intro h1 h2 h3
    simp [parse_shebang_from_file, h1, h2, h3]
  · intro n hn h1 h2 h3
    simp [parse_shebang_from_file, h1, h2, h3, hn]

/-- C8 witness: the four error behaviors at concrete path states (errno 13 is
EACCES, a non-EINVAL failure). -/
theorem C8_parse_shebang_from_file_errors_witness :
    parse_shebang_from_file ⟨false, true, .ok []⟩ = .error .notFound ∧
    parse_shebang_from_file ⟨true, false, .ok []⟩ = .ok [] ∧
    parse_shebang_from_file ⟨true, true, .error 22⟩ = .ok [] ∧
    parse_shebang_from_file ⟨true, true, .error 13⟩ = .error (.ioError 13) :=
  ⟨(C8_parse_shebang_from_file_errors ⟨false, true, .ok []⟩).1 rfl,
   (C8_parse_shebang_from_file_errors ⟨true, false, .ok []⟩).2.1 rfl rfl,
   (C8_parse_shebang_from_file_errors ⟨true, true, .error 22⟩).2.2.1 rfl rfl rfl,
   (C8_parse_shebang_from_file_errors ⟨true, true, .error 13⟩).2.2.2 13
     (by decide) rfl rfl rfl⟩

/-- C3 counterexample: the stream `#! BEL LF`.  Its decoded line consists of
the bell character and a newline, both inside the claim's accepted set, and
under the claim it would proceed to tokenization and yield the nonempty
command `[[7]]`; the code instead returns the empty command, because bell is
not in `string.printable`. -/
theorem C3_counterexample :
    parse_shebang [35, 33, 7, 10] = .ok [] ∧
    utf8Decode (readline ([35, 33, 7, 10].drop 2)).1 = some [7, 10] ∧
    specC3Printable 7 = true ∧ specC3Printable 10 = true ∧
    _shebang_split (pyStrip [7, 10]) = [[7]] ∧
    printable 7 = false := by decide

/-- C3 amended: `parse_shebang` accepts a decoded shebang line iff every
character is in `string.printable`, i.e. printable ASCII 0x20-0x7E or one of
tab, newline, vertical tab, form feed, carriage return — bell, backspace and
escape are rejected.  A rejected line yields the empty command with no error,
and an accepted line proceeds to tokenization (shown here for commands that
do not start the `/usr/bin/env` handling). -/
theorem C3_printable_amended :
    (∀ c : Nat, printable c = true ↔
      ((32 ≤ c ∧ c ≤ 126) ∨ c = 9 ∨ c = 10 ∨ c = 11 ∨ c = 12 ∨ c = 13)) ∧
    (∀ bs line : List Nat, bs.take 2 = [35, 33] →
      utf8Decode (readline (bs.drop 2)).1 = some line →
      line.all printable = false → parse_shebang bs = .ok []) ∧
    (∀ bs line : List Nat, bs.take 2 = [35, 33] →
      utf8Decode (readline (bs.drop 2)).1 = some line →
      line.all printable = true →
      ∀ toks, _shebang_split (pyStrip line) = toks →
        (toks = [] ∨ toks.head? ≠ some (cps "/usr/bin/env")) →
        parse_shebang bs = .ok toks) := by
  refine ⟨?_, ?_, ?_⟩
  · intro c
    simp only [printable, Bool.or_eq_true, Bool.and_eq_true, decide_eq_true_eq]
    omega
  · intro bs line h2 hdec hnp
    have hcond : ¬(bs.take 2 ≠ [35, 33]) := by simp [h2]
    rw [parse_shebang, if_neg hcond]
    simp only [hdec]
    rw [if_pos (by simp [hnp])]
  · intro bs line h2 hdec hpr toks htok hne
    have hcond : ¬(bs.take 2 ≠ [35, 33]) := by simp [h2]
    rw [parse_shebang, if_neg hcond]
    simp only [hdec]
    rw [if_neg (by simp [hpr])]
    simp only [htok]
    rcases hne with rfl | hne
    · rfl
    · cases toks with
      | nil => rfl
      | cons c0 ctail =>
        have hc0 : c0 ≠ cps "/usr/bin/env" := by simpa using hne
        simp [hc0]

/-- C3 amended witness: the bell line is rejected with an empty command, and
the all-printable line `#!x y` is accepted and tokenized. -/
theorem C3_printable_amended_witness :
    parse_shebang [35, 33, 7, 10] = .ok [] ∧
    parse_shebang (cps "#!x y\n") = .ok [cps "x", cps "y"] :=
  ⟨C3_printable_amended.2.1 [35, 33, 7, 10] [7, 10] (by decide) (by decide)
     (by decide),
   C3_printable_amended.2.2 (cps "#!x y\n") [120, 32, 121, 10] (by decide)
     (by decide) (by decide) [[120], [121]] (by decide)
     (Or.inr (by decide))⟩

/-- C7 counterexample: the claim quantifies over every tokenized line whose
first token is `/usr/bin/env` and asserts the remainder is returned; on the
line that tokenizes to exactly `('/usr/bin/env',)` the remainder is empty,
but the code does not return `.ok []` — it raises `IndexError` at `cmd[1]`. -/
theorem C7_counterexample :
    parse_shebang (cps "#!/usr/bin/env\n") ≠ .ok [] := by decide

/-- C7 amended: for a tokenized shebang line with at least two tokens whose
first is exactly `/usr/bin/env`, `parse_shebang` strips it, also strips a
following `-S`, and returns the remainder (when the remainder is not exactly
`nix-shell`, which instead enters the continuation scan of C6); in
particular `#!/usr/bin/env -S python3 -u` yields `("python3", "-u")`. -/
theorem C7_env_strip_amended :
    (∀ (bs line c1 : List Nat) (cs : List (List Nat)), bs.take 2 = [35, 33] →
      utf8Decode (readline (bs.drop 2)).1 = some line →
      line.all printable = true →
      _shebang_split (pyStrip line) = cps "/usr/bin/env" :: c1 :: cs →
      (if c1 = cps "-S" then cs else c1 :: cs) ≠ [cps "nix-shell"] →
      parse_shebang bs = .ok (if c1 = cps "-S" then cs else c1 :: cs)) ∧
    parse_shebang (cps "#!/usr/bin/env -S python3 -u\n") =
      .ok [cps "python3", cps "-u"] := by
  constructor
  · intro bs line c1 cs h2 hdec hpr htok hnix
    have hcond : ¬(bs.take 2 ≠ [35, 33]) := by simp [h2]
    rw [parse_shebang, if_neg hcond]
    simp only [hdec]
    rw [if_neg (by simp [hpr])]
    simp only [htok]
    simp [hnix]
  · decide

/-- C7 amended witness: `#!/usr/bin/env python3` strips the env token and
returns the one-token remainder. -/
theorem C7_env_strip_amended_witness :
    parse_shebang (cps "#!/usr/bin/env python3\n") = .ok [cps "python3"] := by
  have h := C7_env_strip_amended.1 (cps "#!/usr/bin/env python3\n")
    [47, 117, 115, 114, 47, 98, 105, 110, 47, 101, 110, 118, 32, 112, 121,
     116, 104, 111, 110, 51, 10]
    (cps "python3") [] (by decide) (by decide) (by decide) (by decide)
    (by decide)
  simpa using h

/-- C6: after `/usr/bin/env` stripping resolves the command to exactly
`nix-shell`, the parser hands the rest of the stream to the continuation
scan, which processes each following line that begins with `#!` (stopping
and returning the accumulated command when the marker check, the UTF-8
decode, or the printability check fails); on each processed line every `-i`
token followed by another token replaces the command with that single
following token (so the last such occurrence wins); and the two-line
`nix-shell` example resolves to the command `("python3")`. -/
theorem C6_nix_shebang :
    (∀ (bs line c1 : List Nat) (cs : List (List Nat)), bs.take 2 = [35, 33] →
      utf8Decode (readline (bs.drop 2)).1 = some line →
      line.all printable = true →
      _shebang_split (pyStrip line) = cps "/usr/bin/env" :: c1 :: cs →
      (if c1 = cps "-S" then cs else c1 :: cs) = [cps "nix-shell"] →
      parse_shebang bs =
        .ok (_parse_nix_shebang (readline (bs.drop 2)).2 [cps "nix-shell"])) ∧
    (∀ (s : List Nat) (cmd : List (List Nat)), s.take 2 ≠ [35, 33] →
      _parse_nix_shebang s cmd = cmd) ∧
    (∀ (s : List Nat) (cmd : List (List Nat)), s.take 2 = [35, 33] →
      utf8Decode (readline (s.drop 2)).1 = none →
      _parse_nix_shebang s cmd = cmd) ∧
    (∀ (s : List Nat) (cmd : List (List Nat)) (line : List Nat),
      s.take 2 = [35, 33] → utf8Decode (readline (s.drop 2)).1 = some line →
      line.all printable = false → _parse_nix_shebang s cmd = cmd) ∧
    (∀ (s : List Nat) (cmd : List (List Nat)) (line : List Nat),
      s.take 2 = [35, 33] → utf8Decode (readline (s.drop 2)).1 = some line →
      line.all printable = true →
      _parse_nix_shebang s cmd =
        _parse_nix_shebang (readline (s.drop 2)).2
          (nixScan (_shebang_split (pyStrip line)) cmd)) ∧
    (∀ (toks cmd : List (List Nat)),
      nixScan toks cmd =
        match nixLastIArg toks with
        | some a => [a]
        | none => cmd) ∧
    parse_shebang
      (cps "#!/usr/bin/env nix-shell\n#!nix-shell -i python3 -p python3\n") =
      .ok [cps "python3"] := by
  have part1 : ∀ (bs line c1 : List Nat) (cs : List (List Nat)),
      bs.take 2 = [35, 33] →
      utf8Decode (readline (bs.drop 2)).1 = some line →
      line.all printable = true →
      _shebang_split (pyStrip line) = cps "/usr/bin/env" :: c1 :: cs →
      (if c1 = cps "-S" then cs else c1 :: cs) = [cps "nix-shell"] →
      parse_shebang bs =
        .ok (_parse_nix_shebang (readline (bs.drop 2)).2 [cps "nix-shell"]) := by
    intro bs line c1 cs h2 hdec hpr htok hnix
    have hcond : ¬(bs.take 2 ≠ [35, 33]) := by simp [h2]
    rw [parse_shebang, if_neg hcond]
    simp only [hdec]
    rw [if_neg (by simp [hpr])]
    simp only [htok]
    simp [hnix]
  have part2 : ∀ (s : List Nat) (cmd : List (List Nat)), s.take 2 ≠ [35, 33] →
      _parse_nix_shebang s cmd = cmd := by
    intro s cmd h
    rw [_parse_nix_shebang, dif_neg h]
  have part3 : ∀ (s : List Nat) (cmd : List (List Nat)), s.take 2 = [35, 33] →
      utf8Decode (readline (s.drop 2)).1 = none →
      _parse_nix_shebang s cmd = cmd := by
    intro s cmd h hdec
    rw [_parse_nix_shebang, dif_pos h]
    simp only [hdec]
  have part4 : ∀ (s : List Nat) (cmd : List (List Nat)) (line : List Nat),
      s.take 2 = [35, 33] → utf8Decode (readline (s.drop 2)).1 = some line →
      line.all printable = false → _parse_nix_shebang s cmd = cmd := by
    intro s cmd line h hdec hpr
    rw [_parse_nix_shebang, dif_pos h]
    simp only [hdec]
    rw [if_neg (by simp [hpr])]
  have part5 : ∀ (s : List Nat) (cmd : List (List Nat)) (line : List Nat),
      s.take 2 = [35, 33] → utf8Decode (readline (s.drop 2)).1 = some line →
      line.all printable = true →
      _parse_nix_shebang s cmd =
        _parse_nix_shebang (readline (s.drop 2)).2
          (nixScan (_shebang_split (pyStrip line)) cmd) := by
    intro s cmd line h hdec hpr
    rw [_parse_nix_shebang, dif_pos h]
    simp only [hdec]
    rw [if_pos hpr]
  have part6 : ∀ (toks cmd : List (List Nat)),
      nixScan toks cmd =
        match nixLastIArg toks with
        | some a => [a]
        | none => cmd := by
    intro toks
    induction toks with
    | nil => intro cmd; rfl
    | cons t rest ih =>
      intro cmd
      cases rest with
      | nil => rfl
      | cons next rest2 =>
        have hstep : nixScan (t :: next :: rest2) cmd =
            nixScan (next :: rest2) (if t = cps "-i" then [next] else cmd) :=
          rfl
        rw [hstep, ih]
        have hla : nixLastIArg (t :: next :: rest2) =
            match nixLastIArg (next :: rest2) with
            | some a => some a
            | none => if t = cps "-i" then some next else none := rfl
        rw [hla]
        cases nixLastIArg (next :: rest2) with
        | some a => rfl
        | none => by_cases ht : t = cps "-i" <;> simp [ht]
  have hcont : _parse_nix_shebang (cps "#!nix-shell -i python3 -p python3\n")
      [cps "nix-shell"] = [cps "python3"] := by
    rw [_parse_nix_shebang, dif_pos (by decide)]
    have hd : utf8Decode
        (readline ((cps "#!nix-shell -i python3 -p python3\n").drop 2)).1 =
        some (cps "nix-shell -i python3 -p python3\n") := by decide
    simp only [hd]
    rw [if_pos (by decide)]
    have hscan : nixScan
        (_shebang_split (pyStrip (cps "nix-shell -i python3 -p python3\n")))
        [cps "nix-shell"] = [cps "python3"] := by decide
    have hrest :
        (readline ((cps "#!nix-shell -i python3 -p python3\n").drop 2)).2 =
          [] := by decide
    rw [hscan, hrest]
    rw [_parse_nix_shebang, dif_neg (by decide)]
  have part7 : parse_shebang
      (cps "#!/usr/bin/env nix-shell\n#!nix-shell -i python3 -p python3\n") =
      .ok [cps "python3"] := by
    have happ := part1
      (cps "#!/usr/bin/env nix-shell\n#!nix-shell -i python3 -p python3\n")
      (cps "/usr/bin/env nix-shell\n") (cps "nix-shell") []
      (by decide) (by decide) (by decide) (by decide) (by decide)
    rw [happ]
    have hrest2 : (readline
        ((cps "#!/usr/bin/env nix-shell\n#!nix-shell -i python3 -p python3\n")
          |>.drop 2)).2 = cps "#!nix-shell -i python3 -p python3\n" := by
      decide
    rw [hrest2, hcont]
  exact ⟨part1, part2, part3, part4, part5, part6, part7⟩

/-- C6 witness: the stop conditions at concrete streams — a stream not
starting with `#!`, a continuation line that is not valid UTF-8, and a
continuation line containing a NUL — all return the accumulated command. -/
theorem C6_nix_shebang_witness :
    _parse_nix_shebang (cps "no marker") [cps "nix-shell"] =
      [cps "nix-shell"] ∧
    _parse_nix_shebang [35, 33, 255, 10] [cps "nix-shell"] =
      [cps "nix-shell"] ∧
    _parse_nix_shebang [35, 33, 0, 10] [cps "nix-shell"] = [cps "nix-shell"] ∧
    nixScan [cps "nix-shell", cps "-i", cps "python3", cps "-p", cps "python3"]
      [cps "nix-shell"] = [cps "python3"] :=
  ⟨C6_nix_shebang.2.1 (cps "no marker") [cps "nix-shell"] (by decide),
   C6_nix_shebang.2.2.1 [35, 33, 255, 10] [cps "nix-shell"] (by decide)
     (by decide),
   C6_nix_shebang.2.2.2.1 [35, 33, 0, 10] [cps "nix-shell"] [0, 10]
     (by decide) (by decide) (by decide),
   by
     rw [C6_nix_shebang.2.2.2.2.2.1
       [cps "nix-shell", cps "-i", cps "python3", cps "-p", cps "python3"]
       [cps "nix-shell"]]
     decide⟩

/-- Adding `text` to a mode-tagged base with well-formed catalog tags and no
encoding tag yet preserves the invariant. -/
theorem inv_insert_text (b : Bool) (extra : Finset Tag) (hw : wfTagSet extra)
    (henc : ENCODING_TAGS ∩ (baseTags b ∪ extra) = ∅) :
    tagSetInvariant (insert TEXT (baseTags b ∪ extra)) := by
  obtain ⟨hwD, hwS, hwK, hwE, hwN, hwTB⟩ := hw
  have hB : BINARY ∉ baseTags b ∪ extra := by
    intro h
    have hmem : BINARY ∈ ENCODING_TAGS ∩ (baseTags b ∪ extra) :=
      Finset.mem_inter.mpr ⟨by decide, h⟩
    rw [henc] at hmem
    exact absurd hmem (Finset.not_mem_empty _)
  constructor
  · intro _
    constructor
    · cases b
      · right
        constructor
        · simp +decide [baseTags, Finset.mem_insert, Finset.mem_union]
        · simp +decide [baseTags, Finset.mem_insert, Finset.mem_union, hwE]
      · left
        constructor
        · simp +decide [baseTags, Finset.mem_insert, Finset.mem_union]
        · simp +decide [baseTags, Finset.mem_insert, Finset.mem_union, hwN]
    · left
      refine ⟨Finset.mem_insert_self _ _, ?_⟩
      intro hmem
      rcases Finset.mem_insert.mp hmem with h | h
      · exact absurd h (by decide)
      · exact hB h
  · intro hd
    exfalso
    rcases hd with h | h | h
    · rcases Finset.mem_insert.mp h with h | h
      · exact absurd h (by decide)
      · rcases Finset.mem_union.mp h with h | h
        · revert h; cases b <;> decide
        · exact hwD h
    · rcases Finset.mem_insert.mp h with h | h
      · exact absurd h (by decide)
      · rcases Finset.mem_union.mp h with h | h
        · revert h; cases b <;> decide
        · exact hwS h
    · rcases Finset.mem_insert.mp h with h | h
      · exact absurd h (by decide)
      · rcases Finset.mem_union.mp h with h | h
        · revert h; cases b <;> decide
        · exact hwK h

/-- Adding `binary` to a mode-tagged base with well-formed catalog tags and no
encoding tag yet preserves the invariant. -/
theorem inv_insert_binary (b : Bool) (extra : Finset Tag) (hw : wfTagSet extra)
    (henc : ENCODING_TAGS ∩ (baseTags b ∪ extra) = ∅) :
    tagSetInvariant (insert BINARY (baseTags b ∪ extra)) := by
  obtain ⟨hwD, hwS, hwK, hwE, hwN, hwTB⟩ := hw
  have hT : TEXT ∉ baseTags b ∪ extra := by
    intro h
    have hmem : TEXT ∈ ENCODING_TAGS ∩ (baseTags b ∪ extra) :=
      Finset.mem_inter.mpr ⟨by decide, h⟩
    rw [henc] at hmem
    exact absurd hmem (Finset.not_mem_empty _)
  constructor
  · intro _
    constructor
    · cases b
      · right
        constructor
        · simp +decide [baseTags, Finset.mem_insert, Finset.mem_union]
        · simp +decide [baseTags, Finset.mem_insert, Finset.mem_union, hwE]
      · left
        constructor
        · simp +decide [baseTags, Finset.mem_insert, Finset.mem_union]
        · simp +decide [baseTags, Finset.mem_insert, Finset.mem_union, hwN]
    · right
      refine ⟨Finset.mem_insert_self _ _, ?_⟩
      intro hmem
      rcases Finset.mem_insert.mp hmem with h | h
      · exact absurd h (by decide)
      · exact hT h
  · intro hd
    exfalso
    rcases hd with h | h | h
    · rcases Finset.mem_insert.mp h with h | h
      · exact absurd h (by decide)
      · rcases Finset.mem_union.mp h with h | h
        · revert h; cases b <;> decide
        · exact hwD h
    · rcases Finset.mem_insert.mp h with h | h
      · exact absurd h (by decide)
      · rcases Finset.mem_union.mp h with h | h
        · revert h; cases b <;> decide
        · exact hwS h
    · rcases Finset.mem_insert.mp h with h | h
      · exact absurd h (by decide)
      · rcases Finset.mem_union.mp h with h | h
        · revert h; cases b <;> decide
        · exact hwK h

/-- When an encoding tag is already present in the union of the mode-tagged
base and well-formed catalog tags, the invariant already holds. -/
theorem inv_union_of_enc (b : Bool) (extra : Finset Tag) (hw : wfTagSet extra)
    (henc : ENCODING_TAGS ∩ (baseTags b ∪ extra) ≠ ∅) :
    tagSetInvariant (baseTags b ∪ extra) := by
  obtain ⟨hwD, hwS, hwK, hwE, hwN, hwTB⟩ := hw
  obtain ⟨x, hx⟩ := Finset.nonempty_iff_ne_empty.mpr henc
  obtain ⟨hxE, hxU⟩ := Finset.mem_inter.mp hx
  have hTbase : TEXT ∉ baseTags b := by cases b <;> decide
  have hBbase : BINARY ∉ baseTags b := by cases b <;> decide
  have hxor : x = BINARY ∨ x = TEXT := by
    simpa [ENCODING_TAGS, Finset.mem_insert, Finset.mem_singleton] using hxE
  constructor
  · intro _
    constructor
    · cases b
      · right
        constructor
        · simp +decide [baseTags, Finset.mem_union]
        · simp +decide [baseTags, Finset.mem_union, hwE]
      · left
        constructor
        · simp +decide [baseTags, Finset.mem_union]
        · simp +decide [baseTags, Finset.mem_union, hwN]
    · rcases hxor with rfl | rfl
      · right
        refine ⟨hxU, ?_⟩
        intro hmem
        rcases Finset.mem_union.mp hmem with h | h
        · exact hTbase h
        · rcases Finset.mem_union.mp hxU with hb | hb
          · exact hBbase hb
          · exact hwTB ⟨h, hb⟩
      · left
        refine ⟨hxU, ?_⟩
        intro hmem
        rcases Finset.mem_union.mp hmem with h | h
        · exact hBbase h
        · rcases Finset.mem_union.mp hxU with ht | ht
          · exact hTbase ht
          · exact hwTB ⟨ht, h⟩
  · intro hd
    exfalso
    rcases hd with h | h | h
    · rcases Finset.mem_union.mp h with h | h
      · revert h; cases b <;> decide
      · exact hwD h
    · rcases Finset.mem_union.mp h with h | h
      · revert h; cases b <;> decide
      · exact hwS h
    · rcases Finset.mem_union.mp h with h | h
      · revert h; cases b <;> decide
      · exact hwK h

/-- The invariant for a singleton tag set none of whose members is `file`, a
mode tag, or an encoding tag. -/
theorem tagSetInvariant_singleton (t : Tag) (hF : FILE ∉ ({t} : Finset Tag))
    (hE : EXECUTABLE ∉ ({t} : Finset Tag))
    (hN : NON_EXECUTABLE ∉ ({t} : Finset Tag))
    (hT : TEXT ∉ ({t} : Finset Tag)) (hB : BINARY ∉ ({t} : Finset Tag)) :
    tagSetInvariant {t} :=
  ⟨fun hf => absurd hf hF, fun _ => ⟨hE, hN, hT, hB⟩⟩

/-- C2: whenever `tags_from_path` returns successfully and the catalogs obey
the spec's data model (each filename- or interpreter-derived tag set carries
no type tag of `directory`/`symlink`/`socket`, no mode tag, and at most one
encoding tag), a result containing `file` contains exactly one of
{executable, non-executable} and exactly one of {text, binary}, while a
directory, symlink or socket result carries no mode or encoding tag. -/
theorem C2_tags_invariant (cat : Catalogs)
    (hf : ∀ n, wfTagSet (tags_from_filename cat n))
    (hi : ∀ s, wfTagSet (tags_from_interpreter cat s))
    (e : PathEntry) (tags : Finset Tag)
    (h : tags_from_path cat e = .ok tags) :
    tagSetInvariant tags := by
  have hempty : wfTagSet (∅ : Finset Tag) := by simp [wfTagSet]
  unfold tags_from_path at h
  split at h
  · cases h
  · injection h with h1
    subst h1
    exact tagSetInvariant_singleton _ (by decide) (by decide) (by decide)
      (by decide) (by decide)
  · injection h with h1
    subst h1
    exact tagSetInvariant_singleton _ (by decide) (by decide) (by decide)
      (by decide) (by decide)
  · injection h with h1
    subst h1
    exact tagSetInvariant_singleton _ (by decide) (by decide) (by decide)
      (by decide) (by decide)
  · split at h
    · cases h
    · rename_i tags1 hlp
      split at h
      · cases h
      · rename_i tags2 henc
        have htags : tags2 = tags := by
          unfold assertPhase at h
          split at h
          · cases h
          · split at h
            · cases h
            · injection h
        subst htags
        have h1 : ∃ extra : Finset Tag, wfTagSet extra ∧
            tags1 = baseTags e.executable ∪ extra := by
          unfold lookupPhase at hlp
          split at hlp
          · split at hlp
            · split at hlp
              · cases hlp
              · cases hlp
              · cases hlp
              · injection hlp with h2
                exact ⟨∅, hempty, by simp [h2]⟩
              · injection hlp with h2
                exact ⟨tags_from_interpreter cat _, hi _, h2.symm⟩
            · injection hlp with h2
              exact ⟨∅, hempty, by simp [h2]⟩
          · injection hlp with h2
            exact ⟨tags_from_filename cat e.basename, hf _, h2.symm⟩
        obtain ⟨extra, hwext, rfl⟩ := h1
        unfold encodingPhase at henc
        split at henc
        · split at henc
          · cases henc
          · cases henc
          · injection henc with h2
            subst h2
            exact inv_insert_text e.executable extra hwext (by assumption)
          · injection henc with h2
            subst h2
            exact inv_insert_binary e.executable extra hwext (by assumption)
        · injection henc with h2
          subst h2
          exact inv_union_of_enc e.executable extra hwext (by assumption)

/-- The empty catalog yields no filename tags. -/
theorem namesScan_catEmpty (l : List (List Nat)) :
    namesScan catEmpty l = ∅ := by
  induction l with
  | nil => rfl
  | cons p ps ih => simpa [namesScan, catEmpty] using ih

/-- The empty catalog yields no filename tags. -/
theorem tags_from_filename_catEmpty (n : List Nat) :
    tags_from_filename catEmpty n = ∅ := by
  unfold tags_from_filename
  split
  · simp only [catEmpty]
    exact namesScan_catEmpty _
  · exact namesScan_catEmpty _

/-- The empty catalog yields no interpreter tags. -/
theorem interpLoop_catEmpty (l : List Nat) : interpLoop catEmpty l = ∅ := by
  by_cases h : l = []
  · rw [interpLoop, dif_pos h]
  · rw [interpLoop, dif_neg h]
    simp only [catEmpty]
    exact interpLoop_catEmpty (beforeLastByte 46 l)
termination_by l.length
decreasing_by
  simp_wf
  have hlt : ∀ l : List Nat, l ≠ [] → (beforeLastByte 46 l).length < l.length := by
    intro l
    induction l with
    | nil => simp
    | cons c rest ih =>
      intro _
      by_cases hm : (46 : Nat) ∈ rest
      · have hrest : rest ≠ [] := by rintro rfl; simp at hm
        simp only [beforeLastByte, hm, if_true, List.length_cons]
        have := ih hrest
        omega
      · simp [beforeLastByte, hm]
  exact hlt l h

/-- C2 witness: a concrete non-executable regular file classified against the
empty catalog satisfies the invariant; the classification result is
`{file, non-executable, text}`. -/
theorem C2_tags_invariant_witness :
    tagSetInvariant {FILE, NON_EXECUTABLE, TEXT} :=
  C2_tags_invariant catEmpty
    (fun n => by rw [tags_from_filename_catEmpty]; simp [wfTagSet])
    (fun s => by
      show wfTagSet (interpLoop catEmpty _)
      rw [interpLoop_catEmpty]
      simp [wfTagSet])
    ⟨.ok .other, false, [], ⟨true, true, .ok []⟩, true, .ok []⟩
    {FILE, NON_EXECUTABLE, TEXT} (by decide)

/-- `scanStep` on destructured arguments, with the projections reduced. -/
theorem scanStep_pair (norm : List Nat) (cutoff minD : Nat)
    (minS s0 t0 : List Nat) :
    scanStep norm cutoff (minD, minS) (s0, t0) =
      if norm ≠ [] ∧
          norm.length < 20 * absDiff norm.length (_norm_license t0).length then
        (minD, minS)
      else
        if ukkonen_distance norm (_norm_license t0) cutoff < cutoff ∧
            ukkonen_distance norm (_norm_license t0) cutoff < minD then
          (ukkonen_distance norm (_norm_license t0) cutoff, s0)
        else (minD, minS) := rfl

/-- Reaching an exact match: the loop runs past any earlier non-matching
entries (whether skipped or distance-scored) and returns the matching entry's
identifier at once. -/
theorem scan_exact (norm : List Nat) (cutoff : Nat) (spdx text : List Nat)
    (post : List (List Nat × List Nat)) (hex : norm = _norm_license text) :
    ∀ (pre : List (List Nat × List Nat)) (minD : Nat) (minS : List Nat),
      (∀ e ∈ pre, norm ≠ _norm_license e.2) →
      license_id_scan norm cutoff (pre ++ (spdx, text) :: post) minD minS =
        some spdx := by
  intro pre
  induction pre with
  | nil =>
    intro minD minS _
    simp only [List.nil_append, license_id_scan]
    rw [if_pos hex]
  | cons e0 pre ih =>
    intro minD minS hpre
    obtain ⟨s0, t0⟩ := e0
    have hne : norm ≠ _norm_license t0 := hpre (s0, t0) (by simp)
    simp only [List.cons_append, license_id_scan]
    rw [if_neg hne]
    split
    · exact ih _ _ (fun e he => hpre e (by simp [he]))
    · split
      · exact ih _ _ (fun e he => hpre e (by simp [he]))
      · exact ih _ _ (fun e he => hpre e (by simp [he]))

/-- With no exact match in the remaining entries, the loop computes the fold
of `scanStep` over them and applies the final `norm and min_edit_dist <
cutoff` decision. -/
theorem scan_eq_fold (norm : List Nat) (cutoff : Nat) :
    ∀ (l : List (List Nat × List Nat)) (minD : Nat) (minS : List Nat),
      (∀ e ∈ l, norm ≠ _norm_license e.2) →
      license_id_scan norm cutoff l minD minS =
        (if norm ≠ [] ∧
            (l.foldl (scanStep norm cutoff) (minD, minS)).1 < cutoff then
          some (l.foldl (scanStep norm cutoff) (minD, minS)).2
        else none) := by
  intro l
  induction l with
  | nil => intro minD minS _; rfl
  | cons e0 rest ih =>
    intro minD minS hne
    obtain ⟨s0, t0⟩ := e0
    have hne0 : norm ≠ _norm_license t0 := hne (s0, t0) (by simp)
    have hner : ∀ e ∈ rest, norm ≠ _norm_license e.2 :=
      fun e he => hne e (by simp [he])
    simp only [license_id_scan, List.foldl_cons, scanStep_pair]
    rw [if_neg hne0]
    by_cases hskip : norm ≠ [] ∧
        norm.length < 20 * absDiff norm.length (_norm_license t0).length
    · rw [if_pos hskip, if_pos hskip]
      exact ih _ _ hner
    · rw [if_neg hskip, if_neg hskip]
      by_cases hrec : ukkonen_distance norm (_norm_license t0) cutoff < cutoff ∧
          ukkonen_distance norm (_norm_license t0) cutoff < minD
      · rw [if_pos hrec, if_pos hrec]
        exact ih _ _ hner
      · rw [if_neg hrec, if_neg hrec]
        exact ih _ _ hner

/-- The tracked minimum never increases along the fold. -/
theorem fold_fst_le (norm : List Nat) (cutoff : Nat) :
    ∀ (l : List (List Nat × List Nat)) (p : Nat × List Nat),
      (l.foldl (scanStep norm cutoff) p).1 ≤ p.1 := by
  intro l
  induction l with
  | nil => intro p; exact le_refl _
  | cons e0 rest ih =>
    intro p
    rw [List.foldl_cons]
    refine le_trans (ih _) ?_
    unfold scanStep
    split
    · exact le_refl _
    · split
      · rename_i h
        exact le_of_lt h.2
      · exact le_refl _

/-- The final minimum is bounded by the bounded distance of every
length-admissible entry whose bounded distance is below the cutoff. -/
theorem fold_min_le (norm : List Nat) (cutoff : Nat) :
    ∀ (l : List (List Nat × List Nat)) (p : Nat × List Nat)
      (e : List Nat × List Nat), e ∈ l →
      ¬ lengthSkipped norm (_norm_license e.2) →
      ukkonen_distance norm (_norm_license e.2) cutoff < cutoff →
      (l.foldl (scanStep norm cutoff) p).1 ≤
        ukkonen_distance norm (_norm_license e.2) cutoff := by
  intro l
  induction l with
  | nil =>
    intro p e he
    cases he
  | cons e0 rest ih =>
    intro p e he hns hd
    rw [List.foldl_cons]
    rcases List.mem_cons.mp he with rfl | hmem
    · obtain ⟨pd, ps⟩ := p
      obtain ⟨s0, t0⟩ := e
      rw [scanStep_pair]
      have hns' : ¬(norm ≠ [] ∧
          norm.length < 20 * absDiff norm.length (_norm_license t0).length) := by
        simpa [lengthSkipped] using hns
      rw [if_neg hns']
      by_cases hrec : ukkonen_distance norm (_norm_license t0) cutoff < cutoff ∧
          ukkonen_distance norm (_norm_license t0) cutoff < pd
      · rw [if_pos hrec]
        exact fold_fst_le norm cutoff rest _
      · rw [if_neg hrec]
        have hge : pd ≤ ukkonen_distance norm (_norm_license t0) cutoff := by
          rcases Nat.lt_or_ge (ukkonen_distance norm (_norm_license t0) cutoff)
            pd with hlt | hge
          · exact absurd ⟨hd, hlt⟩ hrec
          · exact hge
        exact le_trans (fold_fst_le norm cutoff rest _) hge
    · exact ih _ e hmem hns hd

/-- The fold either leaves the pair untouched or ends at the bounded distance
and identifier of some length-admissible entry scoring below the cutoff. -/
theorem fold_origin (norm : List Nat) (cutoff : Nat) :
    ∀ (l : List (List Nat × List Nat)) (p : Nat × List Nat),
      l.foldl (scanStep norm cutoff) p = p ∨
      ∃ e ∈ l, ¬ lengthSkipped norm (_norm_license e.2) ∧
        ukkonen_distance norm (_norm_license e.2) cutoff < cutoff ∧
        l.foldl (scanStep norm cutoff) p =
          (ukkonen_distance norm (_norm_license e.2) cutoff, e.1) := by
  intro l
  induction l with
  | nil => intro p; exact Or.inl rfl
  | cons e0 rest ih =>
    intro p
    rw [List.foldl_cons]
    rcases ih (scanStep norm cutoff p e0) with h | ⟨e, he, h1, h2, h3⟩
    · rw [h]
      obtain ⟨pd, ps⟩ := p
      obtain ⟨s0, t0⟩ := e0
      rw [scanStep_pair]
      by_cases hskip : norm ≠ [] ∧
          norm.length < 20 * absDiff norm.length (_norm_license t0).length
      · rw [if_pos hskip]
        exact Or.inl rfl
      · rw [if_neg hskip]
        by_cases hrec : ukkonen_distance norm (_norm_license t0) cutoff <
            cutoff ∧ ukkonen_distance norm (_norm_license t0) cutoff < pd
        · rw [if_pos hrec]
          right
          refine ⟨(s0, t0), by simp, ?_, hrec.1, rfl⟩
          simpa [lengthSkipped] using hskip
        · rw [if_neg hrec]
          exact Or.inl rfl
    · right
      exact ⟨e, by simp [he], h1, h2, h3⟩

/-- Whenever the loop answers `some`, the identifier is the incoming sentinel
(possible only if the incoming minimum already beats the cutoff) or comes
from an entry that was an exact match or was length-admissible. -/
theorem scan_some_origin (norm : List Nat) (cutoff : Nat) :
    ∀ (l : List (List Nat × List Nat)) (minD : Nat) (minS s : List Nat),
      license_id_scan norm cutoff l minD minS = some s →
      (s = minS ∧ minD < cutoff) ∨
      ∃ e ∈ l, e.1 = s ∧
        (norm = _norm_license e.2 ∨ ¬ lengthSkipped norm (_norm_license e.2)) := by
  intro l
  induction l with
  | nil =>
    intro minD minS s h
    simp only [license_id_scan] at h
    split at h
    · rename_i hc
      injection h with h1
      exact Or.inl ⟨h1.symm, hc.2⟩
    · cases h
  | cons e0 rest ih =>
    intro minD minS s h
    obtain ⟨s0, t0⟩ := e0
    simp only [license_id_scan] at h
    split at h
    · rename_i hex
      injection h with h1
      right
      exact ⟨(s0, t0), by simp, h1, Or.inl hex⟩
    · split at h
      · rcases ih _ _ _ h with h2 | ⟨e, he, h3⟩
        · exact Or.inl h2
        · right
          exact ⟨e, by simp [he], h3⟩
      · rename_i hex hskip
        split at h
        · rcases ih _ _ _ h with ⟨h2a, h2b⟩ | ⟨e, he, h3⟩
          · right
            refine ⟨(s0, t0), by simp, h2a.symm, Or.inr ?_⟩
            simpa [lengthSkipped] using hskip
          · right
            exact ⟨e, by simp [he], h3⟩
        · rcases ih _ _ _ h with h2 | ⟨e, he, h3⟩
          · exact Or.inl h2
          · right
            exact ⟨e, by simp [he], h3⟩

/-- When every remaining entry is length-skipped, the loop leaves the
tracked minimum untouched and just applies the final decision. -/
theorem scan_all_skipped (norm : List Nat) (cutoff : Nat) :
    ∀ (l : List (List Nat × List Nat)) (minD : Nat) (minS : List Nat),
      (∀ e ∈ l, lengthSkipped norm (_norm_license e.2)) →
      license_id_scan norm cutoff l minD minS =
        (if norm ≠ [] ∧ minD < cutoff then some minS else none) := by
  intro l
  induction l with
  | nil => intro minD minS _; rfl
  | cons e0 rest ih =>
    intro minD minS hsk
    obtain ⟨s0, t0⟩ := e0
    have hs0 : lengthSkipped norm (_norm_license t0) := hsk (s0, t0) (by simp)
    have hne : norm ≠ _norm_license t0 := by
      intro heq
      obtain ⟨h1, h2⟩ := hs0
      rw [heq] at h2
      simp [absDiff] at h2
    simp only [license_id_scan]
    rw [if_neg hne, if_pos (by simpa [lengthSkipped] using hs0)]
    exact ih minD minS (fun e he => hsk e (by simp [he]))

/-- The 5% cutoff of a length CPython can represent fits under
`sys.maxsize`. -/
theorem licenseCutoff_le_maxsize (n : Nat) (h : n ≤ sysMaxsize) :
    licenseCutoff n ≤ sysMaxsize := by
  rcases Nat.eq_zero_or_pos n with rfl | hp
  · simp [licenseCutoff, sysMaxsize]
  · have h1 : n + 19 ≤ 20 * n := by omega
    have h2 : (n + 19) / 20 ≤ 20 * n / 20 := Nat.div_le_div_right h1
    rw [Nat.mul_div_cancel_left n (by norm_num)] at h2
    unfold licenseCutoff
    omega

/-- C4: the exact-match short-circuit returns the first exactly-matching
entry's identifier immediately and takes precedence over any distance
tracking; in the absence of an exact match, with
`cutoff = ceil(0.05 * length)`, the matcher returns `some` iff the
candidate is non-empty and some length-admissible entry has Levenshtein
distance strictly below the cutoff, and any returned identifier belongs to a
length-admissible entry realizing the minimum distance over all
length-admissible entries.  (The hypothesis `length ≤ sysMaxsize` records
that a CPython string length never exceeds `sys.maxsize`, the loop's initial
sentinel.) -/
theorem C4_license_id_characterization :
    (∀ (contents : List Nat) (pre : List (List Nat × List Nat))
        (spdx text : List Nat) (post : List (List Nat × List Nat)),
      (∀ e ∈ pre, _norm_license contents ≠ _norm_license e.2) →
      _norm_license contents = _norm_license text →
      license_id (pre ++ (spdx, text) :: post) contents = some spdx) ∧
    (∀ (contents : List Nat) (catalog : List (List Nat × List Nat)),
      (∀ e ∈ catalog, _norm_license contents ≠ _norm_license e.2) →
      (_norm_license contents).length ≤ sysMaxsize →
      ((license_id catalog contents ≠ none ↔
        (_norm_license contents ≠ [] ∧
         ∃ e ∈ catalog,
           ¬ lengthSkipped (_norm_license contents) (_norm_license e.2) ∧
           levenshtein (_norm_license contents) (_norm_license e.2) <
             licenseCutoff (_norm_license contents).length)) ∧
       (∀ s, license_id catalog contents = some s →
         ∃ e ∈ catalog, e.1 = s ∧
           ¬ lengthSkipped (_norm_license contents) (_norm_license e.2) ∧
           levenshtein (_norm_license contents) (_norm_license e.2) <
             licenseCutoff (_norm_license contents).length ∧
           ∀ e2 ∈ catalog,
             ¬ lengthSkipped (_norm_license contents) (_norm_license e2.2) →
             levenshtein (_norm_license contents) (_norm_license e.2) ≤
               levenshtein (_norm_license contents) (_norm_license e2.2)))) := by
  constructor
  · intro contents pre spdx text post hpre hex
    exact scan_exact (_norm_license contents)
      (licenseCutoff (_norm_license contents).length) spdx text post hex pre
      sysMaxsize [] hpre
  · intro contents catalog hnoex hlen
    have hCle : licenseCutoff (_norm_license contents).length ≤ sysMaxsize :=
      licenseCutoff_le_maxsize _ hlen
    have hlid : license_id catalog contents =
        (if _norm_license contents ≠ [] ∧
            (catalog.foldl
              (scanStep (_norm_license contents)
                (licenseCutoff (_norm_license contents).length))
              (sysMaxsize, [])).1 <
              licenseCutoff (_norm_license contents).length then
          some (catalog.foldl
            (scanStep (_norm_license contents)
              (licenseCutoff (_norm_license contents).length))
            (sysMaxsize, [])).2
        else none) :=
      scan_eq_fold (_norm_license contents)
        (licenseCutoff (_norm_license contents).length) catalog sysMaxsize []
        hnoex
    constructor
    · constructor
      · intro hne
        rw [hlid] at hne
        by_cases hcond : _norm_license contents ≠ [] ∧
            (catalog.foldl
              (scanStep (_norm_license contents)
                (licenseCutoff (_norm_license contents).length))
              (sysMaxsize, [])).1 <
              licenseCutoff (_norm_license contents).length
        · obtain ⟨hN, hF⟩ := hcond
          refine ⟨hN, ?_⟩
          rcases fold_origin (_norm_license contents)
            (licenseCutoff (_norm_license contents).length) catalog
            (sysMaxsize, []) with h | ⟨e, he, h1, h2, h3⟩
          · rw [h] at hF
            exact absurd hF (by omega)
          · refine ⟨e, he, h1, ?_⟩
            unfold ukkonen_distance at h2
            omega
        · rw [if_neg hcond] at hne
          exact absurd rfl hne
      · rintro ⟨hN, e, he, hns, hlt⟩
        rw [hlid]
        have hd : ukkonen_distance (_norm_license contents)
            (_norm_license e.2)
            (licenseCutoff (_norm_license contents).length) <
            licenseCutoff (_norm_license contents).length := by
          unfold ukkonen_distance
          omega
        have hmin := fold_min_le (_norm_license contents)
          (licenseCutoff (_norm_license contents).length) catalog
          (sysMaxsize, []) e he hns hd
        rw [if_pos ⟨hN, lt_of_le_of_lt hmin hd⟩]
        simp
    · intro s hs
      rw [hlid] at hs
      by_cases hcond : _norm_license contents ≠ [] ∧
          (catalog.foldl
            (scanStep (_norm_license contents)
              (licenseCutoff (_norm_license contents).length))
            (sysMaxsize, [])).1 <
            licenseCutoff (_norm_license contents).length
      · rw [if_pos hcond] at hs
        injection hs with hs1
        obtain ⟨hN, hF⟩ := hcond
        rcases fold_origin (_norm_license contents)
          (licenseCutoff (_norm_license contents).length) catalog
          (sysMaxsize, []) with h | ⟨e, he, h1, h2, h3⟩
        · rw [h] at hF
          exact absurd hF (by omega)
        · rw [h3] at hs1 hF
          refine ⟨e, he, hs1, h1, ?_, ?_⟩
          · unfold ukkonen_distance at h2
            omega
          · intro e2 he2 hns2
            by_cases hd2 : ukkonen_distance (_norm_license contents)
                (_norm_license e2.2)
                (licenseCutoff (_norm_license contents).length) <
                licenseCutoff (_norm_license contents).length
            · have hmin := fold_min_le (_norm_license contents)
                (licenseCutoff (_norm_license contents).length) catalog
                (sysMaxsize, []) e2 he2 hns2 hd2
              rw [h3] at hmin
              unfold ukkonen_distance at h2 hd2 hmin
              simp only at hmin
              omega
            · unfold ukkonen_distance at h2 hd2
              omega
      · rw [if_neg hcond] at hs
        cases hs

set_option maxRecDepth 100000 in
/-- C4 witness: an exact match (even preceded by a non-matching entry) wins
immediately, and a 21-character candidate at distance 1 from a catalog text
(cutoff 2) is matched through the distance path. -/
theorem C4_license_id_characterization_witness :
    license_id [(cps "GPL", cps "something else entirely"),
      (cps "MIT", cps "mit license")] (cps "mit  license") = some (cps "MIT") ∧
    license_id [(cps "L1", cps "abcdefghijklmnopqrstu")]
      (cps "abcdefghijklmnopqrstv") ≠ none :=
  ⟨C4_license_id_characterization.1 (cps "mit  license")
     [(cps "GPL", cps "something else entirely")] (cps "MIT")
     (cps "mit license") [] (by decide) (by decide),
   ((C4_license_id_characterization.2 (cps "abcdefghijklmnopqrstv")
       [(cps "L1", cps "abcdefghijklmnopqrstu")] (by decide)
       (by decide)).1).mpr
     ⟨by decide, (cps "L1", cps "abcdefghijklmnopqrstu"), by simp,
      by decide, by decide⟩⟩

/-- C9: a returned identifier always belongs to a catalog entry that passed
the 5% length filter (an exact match passes it trivially with distance 0 in
lengths), and when every entry fails the filter, the matcher returns "no
match" — so a length-skipped entry can never be the returned match. -/
theorem C9_length_pruning (contents : List Nat)
    (catalog : List (List Nat × List Nat))
    (hN : _norm_license contents ≠ [])
    (hlen : (_norm_license contents).length ≤ sysMaxsize) :
    (∀ s, license_id catalog contents = some s →
      ∃ e ∈ catalog, e.1 = s ∧
        ¬ lengthSkipped (_norm_license contents) (_norm_license e.2)) ∧
    ((∀ e ∈ catalog,
        lengthSkipped (_norm_license contents) (_norm_license e.2)) →
      license_id catalog contents = none) := by
  have hCle : licenseCutoff (_norm_license contents).length ≤ sysMaxsize :=
    licenseCutoff_le_maxsize _ hlen
  constructor
  · intro s hs
    rcases scan_some_origin (_norm_license contents)
      (licenseCutoff (_norm_license contents).length) catalog sysMaxsize [] s
      hs with ⟨_, hlt⟩ | ⟨e, he, h1, h2⟩
    · exact absurd hlt (by omega)
    · refine ⟨e, he, h1, ?_⟩
      rcases h2 with hex | hns
      · intro hsk
        obtain ⟨_, hlt⟩ := hsk
        rw [hex] at hlt
        simp [absDiff] at hlt
      · exact hns
  · intro hsk
    have h := scan_all_skipped (_norm_license contents)
      (licenseCutoff (_norm_license contents).length) catalog sysMaxsize []
      hsk
    have hnotlt : ¬(_norm_license contents ≠ [] ∧
        sysMaxsize < licenseCutoff (_norm_license contents).length) := by
      rintro ⟨_, hlt⟩
      omega
    rw [if_neg hnotlt] at h
    exact h

/-- C9 witness: a candidate whose normalized length (8) differs from the only
catalog entry's (36) by far more than 5% returns no match, and an exact match
is returned from a length-admissible entry. -/
theorem C9_length_pruning_witness :
    license_id [(cps "Z", cps "abcdefghijklmnopqrstuvwxyz0123456789")]
      (cps "abcdefgh") = none ∧
    ∃ e ∈ [(cps "Z", cps "some license text here")],
      e.1 = cps "Z" ∧
      ¬ lengthSkipped (_norm_license (cps "some  license text here"))
        (_norm_license e.2) :=
  ⟨(C9_length_pruning (cps "abcdefgh")
      [(cps "Z", cps "abcdefghijklmnopqrstuvwxyz0123456789")] (by decide)
      (by decide)).2
     (by
       intro e he
       simp only [List.mem_singleton] at he
       subst he
       decide),
   (C9_length_pruning (cps "some  license text here")
      [(cps "Z", cps "some license text here")] (by decide) (by decide)).1
     (cps "Z") (by decide)⟩

end Identify
